import Mathlib

/-!
Verification of the agent control loop in `tools.go` (package `main`).

The Go program drives a conversation between a user, an ollama model
backend and a registry of tools.  We embed the data model
(`api.Message`, `api.ToolCall`, `api.Tool`, the `Tool` interface and the
`Brain` struct) and the operations (`Brain.request`, `Brain.callTools`,
`Brain.chat`, `Brain.loop`, `Brain.prompt`, `Brain.start`) as Lean
functions, and prove the spec's claims about them.

Conventions of the embedding:
* Go errors are `Option String` (a method that mutates the receiver and
  returns an error becomes `Brain → Brain × Option String`, so the state
  at the moment of failure is visible).
* The ollama client (`b.client.Chat`) is an external collaborator; it is
  a parameter `backend : ChatRequest → Except String Message`.  A `.ok m`
  outcome models `client.Chat` returning a nil error after delivering the
  final `ChatResponse` whose `Message` is `m`.
* `context.Context` is never inspected by this code; it is an opaque
  token `GoContext` threaded through unchanged.
* Go's `map[string]Tool` is an association list `List (String × Tool)`;
  the claims proved here do not depend on iteration order.
* `huh` form interaction (`Brain.prompt`, `Brain.Start`) is an external
  collaborator: the accepted prompt text is a parameter, and form-level
  errors (user abort) are outside the embedding.
-/

/-- An entry of `api.ToolCallFunctionArguments` (`map[string]any`,
decoded from JSON).  No code under verification inspects argument
values; JSON numbers are modelled as integers. -/
inductive ArgValue where
  | str (s : String)
  | int (n : Int)
  | bool (b : Bool)
  | null
deriving DecidableEq

/-- `api.ToolCallFunction`: the function part of a tool-call request. -/
structure ToolCallFunction where
  index : Int := 0
  name : String
  arguments : List (String × ArgValue) := []
deriving DecidableEq

/-- `api.ToolCall`: one tool-call request inside a message. -/
structure ToolCall where
  function : ToolCallFunction
deriving DecidableEq

/-- `api.Message`: one turn of the conversation.  Fields the program
never reads or writes (`Images`, `Thinking`) are elided. -/
structure Message where
  role : String := ""
  content : String := ""
  toolCalls : List ToolCall := []
deriving DecidableEq

/-- `api.ToolFunction`: the descriptor payload of an `api.Tool`.  The
`Parameters` sub-struct is never populated or read by this program and
is elided. -/
structure ApiToolFunction where
  name : String := ""
  description : String := ""
deriving DecidableEq

/-- `api.Tool`: a tool descriptor sent to the model backend. -/
structure ApiTool where
  type : String := ""
  function : ApiToolFunction := {}
deriving DecidableEq

/-- `context.Context`: an opaque cancellation token.  The program only
threads it through; no field is ever read. -/
structure GoContext where
  cancelled : Bool := false
deriving DecidableEq

/-- The `Tool` interface: `Name()`, `Description()`,
`Run(context.Context, api.ToolCallFunction) (api.Message, error)`. -/
structure Tool where
  name : String
  description : ApiTool
  run : GoContext → ToolCallFunction → Except String Message

/-- `weather.Name()`. -/
def weatherName : String := "get_weather"

/-- `weather.Description()`. -/
def weatherDescription : ApiTool :=
  { function := { name := "get_weather"
                  description := "get current weather description for a city" } }

/-- `weather.Run`: ignores the context and the call, returns
`api.Message{Content: "it is hot", Role: w.Name()}` and a nil error. -/
def weatherRun (_ : GoContext) (_ : ToolCallFunction) : Except String Message :=
  .ok { content := "it is hot", role := weatherName }

/-- The `weather` struct packaged as a `Tool`. -/
def weather : Tool :=
  { name := weatherName, description := weatherDescription, run := weatherRun }

/-- `defaultTools = map[string]Tool{"get_weather": weather{}}`. -/
def defaultTools : List (String × Tool) := [("get_weather", weather)]

/-- `api.ChatRequest`: the request sent to `client.Chat`.  Fields the
program never sets (`Format`, `KeepAlive`, `Options`) are elided.
`Think` and `Stream` are `*bool` in Go; the program always sets both,
so they are plain `Bool` here. -/
structure ChatRequest where
  model : String
  messages : List Message
  tools : List ApiTool
  think : Bool
  stream : Bool

/-- The `Brain` struct.  The `client *api.Client` field is replaced by
passing the backend function to the operations that use it. -/
structure Brain where
  model : String
  limit : Int
  history : List Message
  tools : List (String × Tool)

/-- Go map indexing `b.tools[name]` on the association-list model. -/
def lookupTool : List (String × Tool) → String → Option Tool
  | [], _ => none
  | (k, t) :: rest, name => if k = name then some t else lookupTool rest name

/-- `fmt.Errorf("called non-exist tool %q", name)`. -/
def unknownToolError (name : String) : String :=
  "called non-exist tool \"" ++ name ++ "\""

/-- One iteration of the body of `Brain.callTools`: resolve the call's
tool by name (failing with the unknown-tool error) and run it. -/
def invokeCall (tools : List (String × Tool)) (ctx : GoContext)
    (c : ToolCall) : Except String Message :=
  match lookupTool tools c.function.name with
  | none => .error (unknownToolError c.function.name)
  | some t => t.run ctx c.function

/-- The loop of `Brain.callTools`: invoke every call in order, filling
the `responses` slice, aborting at the first failure. -/
def runCalls (tools : List (String × Tool)) (ctx : GoContext) :
    List ToolCall → Except String (List Message)
  | [] => .ok []
  | c :: rest =>
    match invokeCall tools ctx c with
    | .error e => .error e
    | .ok m =>
      match runCalls tools ctx rest with
      | .error e => .error e
      | .ok ms => .ok (m :: ms)

/-- `Brain.callTools`: run the whole batch; only when every call
succeeded append all responses to the history. -/
def Brain.callTools (b : Brain) (ctx : GoContext) (calls : List ToolCall) :
    Brain × Option String :=
  match runCalls b.tools ctx calls with
  | .error e => (b, some e)
  | .ok ms => ({ b with history := b.history ++ ms }, none)

/-- `Brain.request`: build the `api.ChatRequest` from the brain's model
name, full history and one `Description()` per registered tool, with
`Think = true` and `Stream = false`. -/
def Brain.request (b : Brain) : ChatRequest :=
  { model := b.model
    messages := b.history
    tools := b.tools.map (fun p => p.2.description)
    think := true
    stream := false }

/-- `Brain.chat`: send the request to the backend; on success append the
message captured by the response callback, on failure leave the history
untouched and return the error. -/
def Brain.chat (backend : ChatRequest → Except String Message)
    (b : Brain) : Brain × Option String :=
  match backend b.request with
  | .error e => (b, some e)
  | .ok m => ({ b with history := b.history ++ [m] }, none)

/-- `Brain.loop`: read `b.history[len(b.history)-1]` and branch:
a non-empty `ToolCalls` runs the tool batch, anything else asks the
model.  Indexing an empty history panics in Go; the panic is modelled
as an error. -/
def Brain.loop (backend : ChatRequest → Except String Message)
    (ctx : GoContext) (b : Brain) : Brain × Option String :=
  match b.history.getLast? with
  | none => (b, some "panic: index out of range")
  | some latest =>
    if latest.toolCalls.length ≠ 0 then
      b.callTools ctx latest.toolCalls
    else
      b.chat backend

/-- `Brain.prompt` after the form accepted `content`: append a user
message carrying the collected text. -/
def Brain.prompt (b : Brain) (content : String) : Brain :=
  { b with history := b.history ++ [{ role := "user", content := content }] }

/-- `strings.ToLower` as applied to message roles.  Go lowercases by
Unicode simple case mapping; `Char.toLower` (which lowercases `A`–`Z`
and fixes everything else) agrees with it on the ASCII strings this
program compares against.  Written as a map over the character list so
that it evaluates on literals. -/
def goToLower (s : String) : String := String.mk (s.data.map Char.toLower)

/-- The condition of the `for` loop in `Brain.start`:
`len(b.history) <= b.limit || b.limit == 0`. -/
def startGuard (b : Brain) : Bool :=
  decide ((b.history.length : Int) ≤ b.limit) || decide (b.limit = 0)

/-- The body of the `for` loop in `Brain.start`: read the latest
message; when it has no tool calls and its lowercased role is
"assistant", solicit a user prompt, otherwise run `Brain.loop`
(wrapped in a spinner, which only forwards the error). -/
def Brain.startStep (backend : ChatRequest → Except String Message)
    (ctx : GoContext) (input : String) (b : Brain) : Brain × Option String :=
  match b.history.getLast? with
  | none => (b, some "panic: index out of range")
  | some latest =>
    if latest.toolCalls.length = 0 ∧ goToLower latest.role = "assistant" then
      (b.prompt input, none)
    else
      b.loop backend ctx

/-- Outcome of running `Brain.start` with bounded fuel. -/
inductive StartResult where
  /-- The loop condition became false and the `for` loop exited. -/
  | done (b : Brain)
  /-- An iteration returned an error, which `start` propagates. -/
  | failed (b : Brain) (e : String)
  /-- The fuel ran out while the loop condition was still true (the Go
  loop would keep iterating). -/
  | fuelOut (b : Brain)

/-- `Brain.start`: the `for` loop, fuelled.  `inputs` supplies the text
of each successive user prompt the form would collect. -/
def Brain.start (backend : ChatRequest → Except String Message)
    (ctx : GoContext) (inputs : Nat → String) :
    Nat → Brain → StartResult
  | 0, b => if startGuard b then .fuelOut b else .done b
  | fuel + 1, b =>
    if startGuard b then
      match b.startStep backend ctx (inputs 0) with
      | (b', none) => Brain.start backend ctx (fun k => inputs (k + 1)) fuel b'
      | (b', some e) => .failed b' e
    else
      .done b

/-! Concrete fixtures used to evaluate the theorems on actual inputs. -/

/-- A system message, as seeded by `Brain.Start`. -/
def sysMsg : Message := { role := "system", content := "be helpful" }

/-- A user message, as seeded by `Brain.Start`. -/
def userMsg : Message := { role := "user", content := "hi" }

/-- A plain-content assistant reply (no tool calls). -/
def assistantReply : Message := { role := "assistant", content := "hello" }

/-- An assistant reply whose role tag is upper-cased, as a backend is
free to produce. -/
def upperAssistantReply : Message := { role := "ASSISTANT", content := "hello" }

/-- A backend that always answers with `assistantReply`. -/
def okBackend : ChatRequest → Except String Message := fun _ => .ok assistantReply

/-- A backend that always fails; used to show a branch never reaches
the model. -/
def errBackend : ChatRequest → Except String Message := fun _ => .error "backend called"

/-- A concrete (non-cancelled) context. -/
def ctx0 : GoContext := {}

/-- A constant user-input stream. -/
def constInput : Nat → String := fun _ => "x"

/-- The brain right after `Brain.Start` seeded the history, with
`limit = 0` as `main` passes it. -/
def brainSU : Brain :=
  { model := "qwen3", limit := 0, history := [sysMsg, userMsg], tools := defaultTools }

/-- `brainSU` after one successful model step appending `assistantReply`. -/
def brainSU3 : Brain := { brainSU with history := brainSU.history ++ [assistantReply] }

/-- A brain whose history length (2) already exceeds its limit (1). -/
def brainOverLimit : Brain :=
  { model := "qwen3", limit := 1, history := [sysMsg, userMsg], tools := defaultTools }

/-- A brain whose latest message is `assistantReply`. -/
def brainAfterAssistant : Brain :=
  { model := "qwen3", limit := 0, history := [sysMsg, userMsg, assistantReply],
    tools := defaultTools }

/-- A brain whose latest message is `upperAssistantReply`. -/
def brainCE : Brain :=
  { model := "qwen3", limit := 0, history := [sysMsg, userMsg, upperAssistantReply],
    tools := defaultTools }

/-- A tool-call request for the registered weather tool. -/
def weatherCall : ToolCall := { function := { name := "get_weather" } }

/-- A tool-call request for a name absent from the registry. -/
def badCall : ToolCall := { function := { name := "nope" } }

/-- The message `weather.Run` produces. -/
def weatherResult : Message := { role := "get_weather", content := "it is hot" }

/-! Helper lemmas shared by the claim theorems. -/

theorem runCalls_ok_length (tools : List (String × Tool)) (ctx : GoContext) :
    ∀ (calls : List ToolCall) (ms : List Message),
      runCalls tools ctx calls = .ok ms → ms.length = calls.length := by
  intro calls
  induction calls with
  | nil => intro ms h; simp [runCalls] at h; simp [← h]
  | cons c rest ih =>
    intro ms h
    simp only [runCalls] at h
    cases hc : invokeCall tools ctx c with
    | error e => rw [hc] at h; exact absurd h (by simp)
    | ok m =>
      rw [hc] at h
      cases hr : runCalls tools ctx rest with
      | error e => rw [hr] at h; exact absurd h (by simp)
      | ok ms' =>
        rw [hr] at h
        cases h
        simp [ih ms' hr]

theorem runCalls_ok_get (tools : List (String × Tool)) (ctx : GoContext) :
    ∀ (calls : List ToolCall) (ms : List Message),
      runCalls tools ctx calls = .ok ms →
      ∀ i, i < calls.length →
        ∃ c m, calls[i]? = some c ∧ ms[i]? = some m ∧
          invokeCall tools ctx c = .ok m := by
  intro calls
  induction calls with
  | nil => intro ms _ i hi; simp at hi
  | cons c rest ih =>
    intro ms h i hi
    simp only [runCalls] at h
    cases hc : invokeCall tools ctx c with
    | error e => rw [hc] at h; exact absurd h (by simp)
    | ok m =>
      rw [hc] at h
      cases hr : runCalls tools ctx rest with
      | error e => rw [hr] at h; exact absurd h (by simp)
      | ok ms' =>
        rw [hr] at h
        cases h
        cases i with
        | zero => exact ⟨c, m, by simp, by simp, hc⟩
        | succ j =>
          have hj : j < rest.length := by simpa using hi
          obtain ⟨c', m', h1, h2, h3⟩ := ih ms' hr j hj
          exact ⟨c', m', by simpa using h1, by simpa using h2, h3⟩

theorem runCalls_append_error (tools : List (String × Tool)) (ctx : GoContext)
    (c : ToolCall) (post : List ToolCall) (e : String)
    (hc : invokeCall tools ctx c = .error e) :
    ∀ (pre : List ToolCall) (ms : List Message),
      runCalls tools ctx pre = .ok ms →
      runCalls tools ctx (pre ++ c :: post) = .error e := by
  intro pre
  induction pre with
  | nil => intro ms _; simp [runCalls, hc]
  | cons p rest ih =>
    intro ms h
    simp only [runCalls] at h ⊢
    cases hp : invokeCall tools ctx p with
    | error e' => rw [hp] at h; exact absurd h (by simp)
    | ok m =>
      rw [hp] at h
      cases hr : runCalls tools ctx rest with
      | error e' => rw [hr] at h; exact absurd h (by simp)
      | ok ms' => rw [List.append_eq, ih ms' hr]

theorem prompt_history (b : Brain) (input : String) :
    (b.prompt input).history = b.history ++ [{ role := "user", content := input }] := rfl

theorem chat_history_extends (backend : ChatRequest → Except String Message)
    (b : Brain) : ∃ t, (b.chat backend).1.history = b.history ++ t := by
  unfold Brain.chat
  cases backend b.request with
  | error e => exact ⟨[], by simp⟩
  | ok m => exact ⟨[m], rfl⟩

theorem callTools_history_extends (b : Brain) (ctx : GoContext)
    (calls : List ToolCall) :
    ∃ t, (b.callTools ctx calls).1.history = b.history ++ t := by
  unfold Brain.callTools
  cases runCalls b.tools ctx calls with
  | error e => exact ⟨[], by simp⟩
  | ok ms => exact ⟨ms, rfl⟩

theorem callTools_fst_fields (b : Brain) (ctx : GoContext) (calls : List ToolCall) :
    (b.callTools ctx calls).1.limit = b.limit ∧
    (b.callTools ctx calls).1.tools = b.tools ∧
    (b.callTools ctx calls).1.model = b.model := by
  unfold Brain.callTools
  cases runCalls b.tools ctx calls <;> exact ⟨rfl, rfl, rfl⟩

theorem chat_fst_fields (backend : ChatRequest → Except String Message) (b : Brain) :
    (b.chat backend).1.limit = b.limit ∧
    (b.chat backend).1.tools = b.tools ∧
    (b.chat backend).1.model = b.model := by
  unfold Brain.chat
  cases backend b.request <;> exact ⟨rfl, rfl, rfl⟩

theorem loop_fst_fields (backend : ChatRequest → Except String Message)
    (ctx : GoContext) (b : Brain) :
    (b.loop backend ctx).1.limit = b.limit ∧
    (b.loop backend ctx).1.tools = b.tools ∧
    (b.loop backend ctx).1.model = b.model := by
  unfold Brain.loop
  cases b.history.getLast? with
  | none => exact ⟨rfl, rfl, rfl⟩
  | some latest =>
    dsimp only
    by_cases hl : latest.toolCalls.length ≠ 0
    · rw [if_pos hl]; exact callTools_fst_fields b ctx latest.toolCalls
    · rw [if_neg hl]; exact chat_fst_fields backend b

theorem startStep_fst_limit (backend : ChatRequest → Except String Message)
    (ctx : GoContext) (input : String) (b : Brain) :
    (b.startStep backend ctx input).1.limit = b.limit := by
  unfold Brain.startStep
  cases b.history.getLast? with
  | none => rfl
  | some latest =>
    dsimp only
    by_cases hcond : latest.toolCalls.length = 0 ∧ goToLower latest.role = "assistant"
    · rw [if_pos hcond]; rfl
    · rw [if_neg hcond]; exact (loop_fst_fields backend ctx b).1

theorem loop_ok_growth (backend : ChatRequest → Except String Message)
    (ctx : GoContext) (b b' : Brain)
    (h : b.loop backend ctx = (b', none)) :
    b.history.length + 1 ≤ b'.history.length := by
  unfold Brain.loop at h
  cases hl : b.history.getLast? with
  | none => rw [hl] at h; simp at h
  | some latest =>
    rw [hl] at h
    dsimp only at h
    by_cases ht : latest.toolCalls.length ≠ 0
    · rw [if_pos ht] at h
      unfold Brain.callTools at h
      cases hr : runCalls b.tools ctx latest.toolCalls with
      | error e => rw [hr] at h; simp at h
      | ok ms =>
        rw [hr] at h
        simp only [Prod.mk.injEq] at h
        obtain ⟨hb, -⟩ := h
        have hlen := runCalls_ok_length b.tools ctx latest.toolCalls ms hr
        rw [← hb]
        simp only [List.length_append]
        omega
    · rw [if_neg ht] at h
      unfold Brain.chat at h
      cases hb : backend b.request with
      | error e => rw [hb] at h; simp at h
      | ok m =>
        rw [hb] at h
        simp only [Prod.mk.injEq] at h
        obtain ⟨hb', -⟩ := h
        rw [← hb']
        simp

theorem startStep_grows (backend : ChatRequest → Except String Message)
    (ctx : GoContext) (input : String) (b b' : Brain)
    (h : b.startStep backend ctx input = (b', none)) :
    b.history.length + 1 ≤ b'.history.length := by
  unfold Brain.startStep at h
  cases hl : b.history.getLast? with
  | none => rw [hl] at h; simp at h
  | some latest =>
    rw [hl] at h
    dsimp only at h
    by_cases hcond : latest.toolCalls.length = 0 ∧ goToLower latest.role = "assistant"
    · rw [if_pos hcond] at h
      simp only [Prod.mk.injEq] at h
      obtain ⟨hb, -⟩ := h
      rw [← hb, prompt_history]
      simp
    · rw [if_neg hcond] at h
      exact loop_ok_growth backend ctx b b' h

/-! Claim theorems. -/

/-- C1: for every tool-call batch carried by the latest history message,
if invoking any single call fails (including a request naming a tool
absent from the registry, which fails with an error naming the
non-existent tool), the whole step aborts with that error propagated to
the caller, zero result messages are appended, and the History is
unchanged. -/
theorem tool_batch_failure_aborts_step
    (b : Brain) (ctx : GoContext) (pre : List ToolCall) (c : ToolCall)
    (post : List ToolCall) (e : String) (ms : List Message)
    (hpre : runCalls b.tools ctx pre = .ok ms)
    (hc : invokeCall b.tools ctx c = .error e) :
    b.callTools ctx (pre ++ c :: post) = (b, some e) ∧
    (lookupTool b.tools c.function.name = none →
      e = unknownToolError c.function.name) := by
  constructor
  · unfold Brain.callTools
    rw [runCalls_append_error b.tools ctx c post e hc pre ms hpre]
  · intro hnone
    unfold invokeCall at hc
    rw [hnone] at hc
    injection hc with h1
    exact h1.symm

theorem tool_batch_failure_aborts_step_witness :
    brainSU.callTools ctx0 ([weatherCall] ++ badCall :: []) =
      (brainSU, some (unknownToolError "nope")) ∧
    (lookupTool brainSU.tools badCall.function.name = none →
      unknownToolError "nope" = unknownToolError badCall.function.name) :=
  tool_batch_failure_aborts_step brainSU ctx0 [weatherCall] badCall []
    (unknownToolError "nope") [weatherResult] rfl rfl

/-- C2: the single-step transition function, for every non-empty
History, inspects only the latest message and branches into exactly one
of two actions: a latest message with one or more tool-call requests
runs the tool batch, anything else calls the model backend; user input
is never solicited from inside the step. -/
theorem loop_branches_on_latest
    (backend : ChatRequest → Except String Message) (ctx : GoContext)
    (b : Brain) (latest : Message)
    (h : b.history.getLast? = some latest) :
    b.loop backend ctx =
      if latest.toolCalls.length ≠ 0 then b.callTools ctx latest.toolCalls
      else b.chat backend := by
  unfold Brain.loop
  rw [h]

theorem loop_branches_on_latest_witness :
    brainSU.loop okBackend ctx0 =
      if userMsg.toolCalls.length ≠ 0 then brainSU.callTools ctx0 userMsg.toolCalls
      else brainSU.chat okBackend :=
  loop_branches_on_latest okBackend ctx0 brainSU userMsg rfl

/-- C3: for every tool-call batch in which every call succeeds, the
step invokes the calls sequentially in the order the model emitted them
and appends exactly one result message per request, in that same order,
so History grows by exactly the number of requests. -/
theorem tool_batch_success_appends_in_order
    (b : Brain) (ctx : GoContext) (calls : List ToolCall) (ms : List Message)
    (h : runCalls b.tools ctx calls = .ok ms) :
    b.callTools ctx calls = ({ b with history := b.history ++ ms }, none) ∧
    ms.length = calls.length ∧
    (b.callTools ctx calls).1.history.length = b.history.length + calls.length ∧
    (∀ i, i < calls.length →
      ∃ c m, calls[i]? = some c ∧
        (b.callTools ctx calls).1.history[b.history.length + i]? = some m ∧
        invokeCall b.tools ctx c = .ok m) := by
  have hlen := runCalls_ok_length b.tools ctx calls ms h
  have heq : b.callTools ctx calls = ({ b with history := b.history ++ ms }, none) := by
    unfold Brain.callTools
    rw [h]
  refine ⟨heq, hlen, ?_, ?_⟩
  · rw [heq]
    simp [hlen]
  · intro i hi
    obtain ⟨c, m, h1, h2, h3⟩ := runCalls_ok_get b.tools ctx calls ms h i hi
    refine ⟨c, m, h1, ?_, h3⟩
    rw [heq]
    show (b.history ++ ms)[b.history.length + i]? = some m
    rw [List.getElem?_append_right (Nat.le_add_right _ _), Nat.add_sub_cancel_left]
    exact h2

theorem tool_batch_success_appends_in_order_witness :
    brainSU.callTools ctx0 [weatherCall, weatherCall] =
      ({ brainSU with history := brainSU.history ++ [weatherResult, weatherResult] }, none) ∧
    (brainSU.callTools ctx0 [weatherCall, weatherCall]).1.history.length =
      brainSU.history.length + 2 :=
  ⟨(tool_batch_success_appends_in_order brainSU ctx0 [weatherCall, weatherCall]
      [weatherResult, weatherResult] rfl).1,
   (tool_batch_success_appends_in_order brainSU ctx0 [weatherCall, weatherCall]
      [weatherResult, weatherResult] rfl).2.2.1⟩

/-- C4: for every History whose latest message carries no tool-call
requests, one model step sends the full History plus the current tool
descriptor list to the backend and appends exactly the one returned
message, so History length grows by exactly 1. -/
theorem model_step_appends_one
    (backend : ChatRequest → Except String Message) (ctx : GoContext)
    (b : Brain) (latest : Message) (m : Message)
    (hl : b.history.getLast? = some latest)
    (hnc : latest.toolCalls = [])
    (hb : backend b.request = .ok m) :
    b.request.messages = b.history ∧
    b.request.tools = b.tools.map (fun p => p.2.description) ∧
    b.loop backend ctx = ({ b with history := b.history ++ [m] }, none) ∧
    (b.loop backend ctx).1.history.length = b.history.length + 1 := by
  have hloop : b.loop backend ctx = ({ b with history := b.history ++ [m] }, none) := by
    unfold Brain.loop
    rw [hl]
    dsimp only
    rw [if_neg (by simp [hnc])]
    unfold Brain.chat
    rw [hb]
  refine ⟨rfl, rfl, hloop, ?_⟩
  rw [hloop]
  simp

theorem model_step_appends_one_witness :
    (brainSU.loop okBackend ctx0 =
      ({ brainSU with history := brainSU.history ++ [assistantReply] }, none) ∧
     (brainSU.loop okBackend ctx0).1.history.length = brainSU.history.length + 1) ∧
    (brainSU.loop okBackend ctx0).1.history.length = 3 ∧
    ((brainSU.loop okBackend ctx0).1.history.getLast?).map Message.role = some "assistant" :=
  ⟨⟨(model_step_appends_one okBackend ctx0 brainSU userMsg assistantReply rfl rfl rfl).2.2.1,
    (model_step_appends_one okBackend ctx0 brainSU userMsg assistantReply rfl rfl rfl).2.2.2⟩,
   rfl, rfl⟩

theorem start_limit_zero_never_done
    (backend : ChatRequest → Except String Message) (ctx : GoContext) :
    ∀ (fuel : Nat) (inputs : Nat → String) (b : Brain), b.limit = 0 →
      ∀ b', b.start backend ctx inputs fuel ≠ .done b' := by
  intro fuel
  induction fuel with
  | zero =>
    intro inputs b h0 b'
    unfold Brain.start
    have hg : startGuard b = true := by
      unfold startGuard
      simp [h0]
    rw [hg]
    simp
  | succ n ih =>
    intro inputs b h0 b'
    unfold Brain.start
    have hg : startGuard b = true := by
      unfold startGuard
      simp [h0]
    rw [hg, if_pos rfl]
    cases hs : b.startStep backend ctx (inputs 0) with
    | mk b2 err =>
      cases err with
      | none =>
        dsimp only
        have h2 : b2.limit = 0 := by
          have hpres := startStep_fst_limit backend ctx (inputs 0) b
          rw [hs] at hpres
          rw [← h0]
          exact hpres
        exact ih (fun k => inputs (k + 1)) b2 h2 b'
      | some e =>
        dsimp only
        intro hcontra
        exact StartResult.noConfusion hcontra

/-- C5: the outer loop never executes another iteration once
`len(History) > limit` with `limit ≠ 0` (it exits at once, leaving the
brain untouched), and when `limit = 0` the length-based condition never
stops the loop (the loop never reaches the normal exit). -/
theorem start_limit_termination :
    (∀ (backend : ChatRequest → Except String Message) (ctx : GoContext)
       (inputs : Nat → String) (fuel : Nat) (b : Brain),
       b.limit ≠ 0 → b.limit < (b.history.length : Int) →
       b.start backend ctx inputs fuel = .done b) ∧
    (∀ (backend : ChatRequest → Except String Message) (ctx : GoContext)
       (inputs : Nat → String) (fuel : Nat) (b : Brain),
       b.limit = 0 → ∀ b', b.start backend ctx inputs fuel ≠ .done b') := by
  constructor
  · intro backend ctx inputs fuel b h0 hlt
    have hg : startGuard b = false := by
      unfold startGuard
      simp only [Bool.or_eq_false_iff, decide_eq_false_iff_not]
      exact ⟨by omega, h0⟩
    cases fuel with
    | zero =>
      unfold Brain.start
      rw [hg]
      simp
    | succ n =>
      unfold Brain.start
      rw [hg]
      simp
  · intro backend ctx inputs fuel b h0 b'
    exact start_limit_zero_never_done backend ctx fuel inputs b h0 b'

theorem start_limit_termination_witness :
    brainOverLimit.start okBackend ctx0 constInput 5 = .done brainOverLimit ∧
    brainSU.start okBackend ctx0 constInput 0 ≠ .done brainSU :=
  ⟨start_limit_termination.1 okBackend ctx0 constInput 5 brainOverLimit
     (by decide) (by decide),
   start_limit_termination.2 okBackend ctx0 constInput 0 brainSU rfl brainSU⟩

/-- C6 counterexample: a History ending in a message with no tool calls
and role `"ASSISTANT"` (not `"assistant"`) still makes the outer loop
solicit user input — the prompt branch runs (appending a user message)
and the backend is never consulted — refuting the claim that the prompt
branch runs exactly when the role is the exact string `"assistant"`. -/
theorem start_prompt_condition_cex :
    brainCE.history.getLast? = some upperAssistantReply ∧
    upperAssistantReply.toolCalls = [] ∧
    upperAssistantReply.role ≠ "assistant" ∧
    brainCE.startStep errBackend ctx0 "next" = (brainCE.prompt "next", none) ∧
    (brainCE.prompt "next").history =
      brainCE.history ++ [{ role := "user", content := "next" }] :=
  ⟨rfl, rfl, by decide, rfl, rfl⟩

/-- C6 (amended): the outer loop solicits a new user message exactly
when the latest History message has no tool-call requests and its role,
lowercased by `strings.ToLower`, equals `"assistant"`; the solicited
message is appended with role `"user"`; in every other case the loop
runs the automated step instead. -/
theorem start_prompt_condition
    (backend : ChatRequest → Except String Message) (ctx : GoContext)
    (input : String) (b : Brain) (latest : Message)
    (h : b.history.getLast? = some latest) :
    b.startStep backend ctx input =
      (if latest.toolCalls.length = 0 ∧ goToLower latest.role = "assistant"
       then (b.prompt input, none)
       else b.loop backend ctx) ∧
    (b.prompt input).history = b.history ++ [{ role := "user", content := input }] := by
  constructor
  · unfold Brain.startStep
    rw [h]
  · exact prompt_history b input

theorem start_prompt_condition_witness :
    brainAfterAssistant.startStep okBackend ctx0 "next" =
      (if assistantReply.toolCalls.length = 0 ∧ goToLower assistantReply.role = "assistant"
       then (brainAfterAssistant.prompt "next", none)
       else brainAfterAssistant.loop okBackend ctx0) ∧
    (brainAfterAssistant.prompt "next").history =
      brainAfterAssistant.history ++ [{ role := "user", content := "next" }] :=
  start_prompt_condition okBackend ctx0 "next" brainAfterAssistant assistantReply rfl

/-- C7: every request built for the model backend carries the model
identifier, the full message history, one descriptor per registered
tool, the reasoning-trace flag set to true and the streaming flag set
to false. -/
theorem request_contract (b : Brain) :
    b.request.model = b.model ∧
    b.request.messages = b.history ∧
    b.request.tools = b.tools.map (fun p => p.2.description) ∧
    b.request.tools.length = b.tools.length ∧
    b.request.think = true ∧
    b.request.stream = false :=
  ⟨rfl, rfl, rfl, by simp [Brain.request], rfl, rfl⟩

/-- C8: the History is append-only: the user-prompt append, the model
step and the tool-batch step each leave the previously stored messages
unchanged as a prefix and only add new messages at the end. -/
theorem history_append_only (b : Brain) :
    (∀ input, (b.prompt input).history =
       b.history ++ [{ role := "user", content := input }]) ∧
    (∀ backend, ∃ t, (b.chat backend).1.history = b.history ++ t) ∧
    (∀ ctx calls, ∃ t, (b.callTools ctx calls).1.history = b.history ++ t) :=
  ⟨fun input => prompt_history b input,
   fun backend => chat_history_extends backend b,
   fun ctx calls => callTools_history_extends b ctx calls⟩

theorem start_sufficient_fuel_no_fuelOut
    (backend : ChatRequest → Except String Message) (ctx : GoContext) :
    ∀ (fuel : Nat) (inputs : Nat → String) (b : Brain),
      b.limit ≠ 0 → b.limit < ((b.history.length + fuel : Nat) : Int) →
      ∀ b'', b.start backend ctx inputs fuel ≠ .fuelOut b'' := by
  intro fuel
  induction fuel with
  | zero =>
    intro inputs b h0 hlt b''
    unfold Brain.start
    have hg : startGuard b = false := by
      unfold startGuard
      simp only [Bool.or_eq_false_iff, decide_eq_false_iff_not]
      constructor
      · push_cast at hlt
        omega
      · exact h0
    rw [hg]
    simp
  | succ n ih =>
    intro inputs b h0 hlt b''
    unfold Brain.start
    by_cases hg : startGuard b = true
    · rw [if_pos hg]
      cases hs : b.startStep backend ctx (inputs 0) with
      | mk b2 err =>
        cases err with
        | none =>
          dsimp only
          have h2lim : b2.limit = b.limit := by
            have hpres := startStep_fst_limit backend ctx (inputs 0) b
            rw [hs] at hpres
            exact hpres
          refine ih (fun k => inputs (k + 1)) b2 (by rw [h2lim]; exact h0) ?_ b''
          have hgrow := startStep_grows backend ctx (inputs 0) b b2 hs
          rw [h2lim]
          push_cast at hlt ⊢
          omega
        | some e =>
          dsimp only
          intro hcontra
          exact StartResult.noConfusion hcontra
    · rw [if_neg hg]
      intro hcontra
      exact StartResult.noConfusion hcontra

/-- C9: every successful iteration of the outer loop grows the History
by at least one message, so with a non-zero limit the loop runs only
finitely many iterations: as soon as the fuel exceeds the gap between
the limit and the current length, the loop cannot still be running. -/
theorem step_growth_ensures_termination :
    (∀ (backend : ChatRequest → Except String Message) (ctx : GoContext)
       (input : String) (b b' : Brain),
       b.startStep backend ctx input = (b', none) →
       b.history.length + 1 ≤ b'.history.length) ∧
    (∀ (backend : ChatRequest → Except String Message) (ctx : GoContext)
       (fuel : Nat) (inputs : Nat → String) (b : Brain),
       b.limit ≠ 0 → b.limit < ((b.history.length + fuel : Nat) : Int) →
       ∀ b'', b.start backend ctx inputs fuel ≠ .fuelOut b'') :=
  ⟨startStep_grows, fun backend ctx => start_sufficient_fuel_no_fuelOut backend ctx⟩

theorem step_growth_ensures_termination_witness :
    brainSU.history.length + 1 ≤ brainSU3.history.length ∧
    brainOverLimit.start okBackend ctx0 constInput 5 ≠ .fuelOut brainOverLimit :=
  ⟨step_growth_ensures_termination.1 okBackend ctx0 "x" brainSU brainSU3 rfl,
   step_growth_ensures_termination.2 okBackend ctx0 5 constInput brainOverLimit
     (by decide) (by decide) brainOverLimit⟩

/-- C10: `weather.Run`, for every cancellation context and every
tool-call arguments value, returns the message with content
"it is hot" and role "get_weather" (the tool's own name) and a nil
error: it never fails and its output is independent of its inputs. -/
theorem weather_run_constant :
    ∀ (ctx : GoContext) (call : ToolCallFunction),
      weatherRun ctx call = .ok weatherResult ∧
      weatherResult.role = "get_weather" ∧
      weatherResult.content = "it is hot" ∧
      weather.name = "get_weather" :=
  fun _ _ => ⟨rfl, rfl, rfl, rfl⟩
